import Mathlib

/-!
Verification of the test-tube hyperparameter scheduler
(`test_tube/argparse_hopt.py`) against its specification.

The embedding models Python dictionaries as association lists with
insert-overwrite-in-place semantics, Python exceptions as `Except`
results, the multiprocessing token queue as a FIFO `List`, and the
numpy random sampler as an oracle function passed explicitly.
-/

namespace TestTube

/-- Python exception kinds raised by the code under study. -/
inductive PyErr where
  | assertionError (msg : String)
  | valueError (msg : String)
  | typeError (msg : String)
  | unpackError
deriving DecidableEq, Repr

/-- Python `dict` lookup (`d[k]` / `d.get(k)`): the value stored at the
unique occurrence of key `k`, if present. -/
def dictGet {V : Type} : List (String × V) → String → Option V
  | [], _ => none
  | (k', v) :: rest, k => if k' = k then some v else dictGet rest k

/-- Python `dict` assignment `d[k] = v`: overwrite in place when the key
exists, append otherwise. -/
def dictSet {V : Type} : List (String × V) → String → V → List (String × V)
  | [], k, v => [(k, v)]
  | (k', v') :: rest, k, v =>
      if k' = k then (k, v) :: rest else (k', v') :: dictSet rest k v

/-- One candidate record of a flattened parameter group, the
`{'idx': i, 'val': val, 'name': clean_name}` dict built by
`HyperOptArgumentParser.__flatten_params`.  A trial is a list of such
records, one per tunable parameter. -/
structure FlatParam (V : Type) where
  idx : Nat
  val : V
  name : String
deriving DecidableEq, Repr

/-- `HyperOptArgumentParser.__namespace_from_trial`: build the per-trial
configuration. `trial_dict = {d['name']: d['val'] for d in trial}`, then
every parsed key not already present is copied in. -/
def namespace_from_trial {V : Type} (parsed_args : List (String × V))
    (trial : List (FlatParam V)) : List (String × V) :=
  let trial_dict := trial.foldl (fun d a => dictSet d a.name a.val) []
  parsed_args.foldl
    (fun d kv => if (dictGet d kv.1).isSome then d else dictSet d kv.1 kv.2)
    trial_dict

theorem dictGet_dictSet_self {V : Type} (d : List (String × V)) (k : String) (v : V) :
    dictGet (dictSet d k v) k = some v := by
  induction d with
  | nil => simp [dictSet, dictGet]
  | cons p rest ih =>
      obtain ⟨k', v'⟩ := p
      by_cases h : k' = k
      · simp [dictSet, h, dictGet]
      · simp [dictSet, h, dictGet, ih]

theorem dictGet_dictSet_ne {V : Type} (d : List (String × V)) (k k' : String) (v : V)
    (h : k ≠ k') : dictGet (dictSet d k v) k' = dictGet d k' := by
  induction d with
  | nil => simp [dictSet, dictGet, h]
  | cons p rest ih =>
      obtain ⟨k₀, v₀⟩ := p
      by_cases h₀ : k₀ = k
      · subst h₀
        simp [dictSet, dictGet, h]
      · simp [dictSet, h₀, dictGet, ih]

/-- Folding the trial records into `trial_dict` leaves keys that are not
trial names untouched. -/
theorem trialFold_notmem {V : Type} (trial : List (FlatParam V))
    (d : List (String × V)) (k : String) (h : k ∉ trial.map FlatParam.name) :
    dictGet (trial.foldl (fun d a => dictSet d a.name a.val) d) k = dictGet d k := by
  induction trial generalizing d with
  | nil => rfl
  | cons a rest ih =>
      simp only [List.map_cons, List.mem_cons] at h
      push_neg at h
      simp only [List.foldl_cons]
      rw [ih _ h.2, dictGet_dictSet_ne _ _ _ _ (fun hh => h.1 hh.symm)]

/-- With distinct trial names, every trial record ends up bound to its own
value in `trial_dict`. -/
theorem trialFold_mem {V : Type} (trial : List (FlatParam V))
    (d : List (String × V)) (hnd : (trial.map FlatParam.name).Nodup)
    (a : FlatParam V) (ha : a ∈ trial) :
    dictGet (trial.foldl (fun d a => dictSet d a.name a.val) d) a.name = some a.val := by
  induction trial generalizing d with
  | nil => cases ha
  | cons b rest ih =>
      simp only [List.map_cons, List.nodup_cons] at hnd
      rcases List.mem_cons.mp ha with h | h
      · subst h
        simp only [List.foldl_cons]
        rw [trialFold_notmem _ _ _ hnd.1, dictGet_dictSet_self]
      · exact ih _ hnd.2 h

/-- Copying the parsed entries never overwrites an existing binding. -/
theorem parsedFold_preserve {V : Type} (parsed : List (String × V))
    (d : List (String × V)) (k : String) (v : V) (h : dictGet d k = some v) :
    dictGet (parsed.foldl
      (fun d kv => if (dictGet d kv.1).isSome then d else dictSet d kv.1 kv.2) d) k
      = some v := by
  induction parsed generalizing d with
  | nil => exact h
  | cons kv rest ih =>
      simp only [List.foldl_cons]
      by_cases hs : (dictGet d kv.1).isSome
      · rw [if_pos hs]; exact ih _ h
      · rw [if_neg hs]
        apply ih
        by_cases hk : kv.1 = k
        · subst hk
          rw [h] at hs; simp at hs
        · rw [dictGet_dictSet_ne _ _ _ _ hk]; exact h

/-- A key absent from the accumulator ends up bound to its first parsed
value (Python dict keys are unique, so "first" is "the" value). -/
theorem parsedFold_absent {V : Type} (parsed : List (String × V))
    (d : List (String × V)) (k : String) (h : dictGet d k = none) :
    dictGet (parsed.foldl
      (fun d kv => if (dictGet d kv.1).isSome then d else dictSet d kv.1 kv.2) d) k
      = dictGet parsed k := by
  induction parsed generalizing d with
  | nil => exact h
  | cons kv rest ih =>
      obtain ⟨k₀, v₀⟩ := kv
      simp only [List.foldl_cons]
      by_cases hk : k₀ = k
      · subst hk
        have hnot : ¬ (dictGet d k₀).isSome := by rw [h]; simp
        rw [if_neg hnot]
        have : dictGet (dictSet d k₀ v₀) k₀ = some v₀ := dictGet_dictSet_self _ _ _
        rw [parsedFold_preserve _ _ _ _ this]
        simp [dictGet]
      · have hrest : dictGet ((k₀, v₀) :: rest) k = dictGet rest k := by
          simp [dictGet, hk]
        rw [hrest]
        by_cases hs : (dictGet d k₀).isSome
        · rw [if_pos hs]; exact ih _ h
        · rw [if_neg hs]
          apply ih
          rw [dictGet_dictSet_ne _ _ _ _ hk]; exact h

/-- Claim C4: the per-trial configuration maps each name assigned in the
trial (names distinct, as produced by one record per tunable parameter)
to the trial's value — also when the name is absent from the base
configuration, in which case the result simply gains that key and no
error is raised (the builder is total) — and maps every other base key
to its base value. -/
theorem c4_namespace_from_trial_merge {V : Type}
    (parsed_args : List (String × V)) (trial : List (FlatParam V))
    (hnd : (trial.map FlatParam.name).Nodup) :
    (∀ a ∈ trial,
        dictGet (namespace_from_trial parsed_args trial) a.name = some a.val)
    ∧ (∀ k, k ∉ trial.map FlatParam.name →
        dictGet (namespace_from_trial parsed_args trial) k = dictGet parsed_args k) := by
  constructor
  · intro a ha
    exact parsedFold_preserve _ _ _ _ (trialFold_mem trial [] hnd a ha)
  · intro k hk
    have h0 : dictGet (trial.foldl (fun d a => dictSet d a.name a.val)
        ([] : List (String × V))) k = none := by
      rw [trialFold_notmem _ _ _ hk]; rfl
    exact parsedFold_absent _ _ _ h0

/-- Witness for C4 at the spec's own example:
`build({b: 5}, {a:1,b:2,c:3}) = {a:1,b:5,c:3}`. -/
theorem c4_namespace_from_trial_merge_witness :
    dictGet (namespace_from_trial [("a", 1), ("b", 2), ("c", 3)]
      [(⟨0, 5, "b"⟩ : FlatParam Nat)]) "b" = some 5
    ∧ dictGet (namespace_from_trial [("a", 1), ("b", 2), ("c", 3)]
      [(⟨0, 5, "b"⟩ : FlatParam Nat)]) "a" = some 1 :=
  ⟨(c4_namespace_from_trial_merge [("a", 1), ("b", 2), ("c", 3)]
      [⟨0, 5, "b"⟩] (by decide)).1 ⟨0, 5, "b"⟩ (by decide),
   (c4_namespace_from_trial_merge [("a", 1), ("b", 2), ("c", 3)]
      [⟨0, 5, "b"⟩] (by decide)).2 "a" (by decide)⟩

/-- The outcome Python stores for a trial: `results` on normal return of
the training callback, `None` when the callback raised. -/
def outcome {E R : Type} : Except E R → Option R
  | .ok r => some r
  | .error _ => none

/-- `optimize_parallel_gpu_private`: one Pooled-GPU worker execution over
the shared FIFO token queue `g_gpu_id_q` (front = next `get`, `put`
appends at the back).  `none` models the worker blocking forever on an
empty queue; otherwise the worker takes the front token, runs the
callback under try/except, and the `finally` block puts the same token
back.  (The `CUDA_VISIBLE_DEVICES` export only publishes the token to
the callback's process environment and is not modelled.) -/
def optimize_parallel_gpu_private {A E R : Type} (train : A → Except E R)
    (trial_params : A) (q : List String) :
    Option ((A × Option R) × List String) :=
  match q with
  | [] => none
  | gpu_id_set :: rest =>
      match train trial_params with
      | .ok results => some ((trial_params, some results), rest ++ [gpu_id_set])
      | .error _ => some ((trial_params, none), rest ++ [gpu_id_set])

/-- `self.pool.map(optimize_parallel_gpu_private, self.trials)` in
submission order: the canonical sequential interleaving of the worker
pool. `none` models a run in which some worker blocks forever. -/
def gpu_pool_map {A E R : Type} (train : A → Except E R) :
    List A → List String → Option (List (A × Option R) × List String)
  | [], q => some ([], q)
  | t :: ts, q =>
      match optimize_parallel_gpu_private train t q with
      | none => none
      | some (r, q') =>
          match gpu_pool_map train ts q' with
          | none => none
          | some (rs, q'') => some (r :: rs, q'')

/-- On a nonempty queue the pool map completes, each trial's entry is its
configuration paired with `outcome` of the callback, and the final queue
is a permutation of the initial one. -/
theorem gpu_pool_map_eq {A E R : Type} (train : A → Except E R)
    (trials : List A) (q : List String) (hq : q ≠ []) :
    ∃ q', gpu_pool_map train trials q
        = some (trials.map (fun t => (t, outcome (train t))), q')
      ∧ q'.Perm q := by
  induction trials generalizing q with
  | nil => exact ⟨q, rfl, List.Perm.refl q⟩
  | cons t ts ih =>
      obtain ⟨g, rest, rfl⟩ : ∃ g rest, q = g :: rest := by
        cases q with
        | nil => exact absurd rfl hq
        | cons g rest => exact ⟨g, rest, rfl⟩
      have hq' : rest ++ [g] ≠ [] := by simp
      obtain ⟨q', hmap, hperm⟩ := ih (rest ++ [g]) hq'
      have hperm' : q'.Perm (g :: rest) :=
        hperm.trans (List.perm_append_comm.trans (by simp))
      cases htr : train t with
      | ok r =>
          exact ⟨q', by
            simp only [gpu_pool_map, optimize_parallel_gpu_private, htr, hmap,
              List.map_cons, outcome], hperm'⟩
      | error e =>
          exact ⟨q', by
            simp only [gpu_pool_map, optimize_parallel_gpu_private, htr, hmap,
              List.map_cons, outcome], hperm'⟩

/-- Claim C1: every execution path of the Pooled-GPU worker acquires
exactly one token (the queue front) and returns that same token — the
queue after the worker is the old queue minus that token plus that same
token at the back — whether the callback returns or raises; hence a run
over any trial list on a nonempty queue terminates with a final queue
holding exactly the multiset of tokens it was seeded with, none
duplicated, none lost. -/
theorem c1_gpu_token_conservation {A E R : Type} (train : A → Except E R)
    (trials : List A) (q : List String) (hq : q ≠ []) :
    (∀ (trial : A) (g : String) (rest : List String),
        ∃ oc, optimize_parallel_gpu_private train trial (g :: rest)
          = some ((trial, oc), rest ++ [g]))
    ∧ (∃ results q', gpu_pool_map train trials q = some (results, q')
        ∧ Multiset.ofList q' = Multiset.ofList q) := by
  constructor
  · intro trial g rest
    cases htr : train trial with
    | ok r =>
        exact ⟨some r, by simp [optimize_parallel_gpu_private, htr]⟩
    | error e =>
        exact ⟨none, by simp [optimize_parallel_gpu_private, htr]⟩
  · obtain ⟨q', hmap, hperm⟩ := gpu_pool_map_eq train trials q hq
    exact ⟨_, q', hmap, Quot.sound hperm⟩

/-- Witness for C1: two trials (one succeeding, one failing) on the
two-token queue of the spec's own example. -/
theorem c1_gpu_token_conservation_witness :
    (∀ (trial : Nat) (g : String) (rest : List String),
        ∃ oc, optimize_parallel_gpu_private
            (fun n => if n = 0 then Except.error "boom" else Except.ok n)
            trial (g :: rest)
          = some ((trial, oc), rest ++ [g]))
    ∧ (∃ results q', gpu_pool_map
          (fun n => if n = 0 then Except.error "boom" else Except.ok n)
          [0, 7] ["0", "1"] = some (results, q')
        ∧ Multiset.ofList q' = Multiset.ofList ["0", "1"]) :=
  c1_gpu_token_conservation
    (fun n => if n = 0 then Except.error "boom" else Except.ok n)
    [0, 7] ["0", "1"] (by decide)

/-- Claim C2: on any trial list, with some callbacks failing, the
Pooled-GPU run still returns a sequence of the same length in which a
failed trial contributes `(configuration, none)`, a successful trial
contributes `(configuration, some result)`, no exception escapes to the
caller (the run result carries no error case at all), and the token
queue is conserved. -/
theorem c2_gpu_failure_isolation {A E R : Type} (train : A → Except E R)
    (trials : List A) (q : List String) (hq : q ≠ []) :
    ∃ results q',
      gpu_pool_map train trials q = some (results, q')
      ∧ results.length = trials.length
      ∧ (∀ i (hi : i < trials.length) (hi' : i < results.length),
          results[i] = (trials[i], outcome (train trials[i])))
      ∧ q'.Perm q := by
  obtain ⟨q', hmap, hperm⟩ := gpu_pool_map_eq train trials q hq
  refine ⟨trials.map (fun t => (t, outcome (train t))), q', hmap, by simp, ?_, hperm⟩
  intro i hi hi'
  simp

/-- Witness for C2: three of four callbacks raise; the run returns four
entries, the failed ones marked `none`, and the queue is a permutation
of the seed. -/
theorem c2_gpu_failure_isolation_witness :
    ∃ results q',
      gpu_pool_map
        (fun n => if n = 0 then Except.error "boom" else Except.ok (n + 1))
        [0, 3, 0, 0] ["0", "1"] = some (results, q')
      ∧ results.length = [0, 3, 0, 0].length
      ∧ (∀ i (hi : i < [0, 3, 0, 0].length) (hi' : i < results.length),
          results[i] = ([0, 3, 0, 0][i],
            outcome ((fun n => if n = 0 then Except.error "boom"
              else Except.ok (n + 1)) ([0, 3, 0, 0][i]))))
      ∧ q'.Perm ["0", "1"] :=
  c2_gpu_failure_isolation
    (fun n => if n = 0 then Except.error "boom" else Except.ok (n + 1))
    [0, 3, 0, 0] ["0", "1"] (by decide)

/-- `optimize_parallel_cpu_private`: one Pooled-CPU worker.  There is no
try/except: the random jitter sleep (a pure delay, not modelled) is
followed directly by the callback, so a raised exception leaves the
worker as an error instead of a `[trial_params, results]` pair. -/
def optimize_parallel_cpu_private {A E R : Type} (train : A → Except E R)
    (trial_params : A) : Except E (A × R) :=
  match train trial_params with
  | .ok results => .ok (trial_params, results)
  | .error e => .error e

/-- `self.pool.map(optimize_parallel_cpu_private, self.trials)`: the pool
map collects the workers' results in submission order and re-raises the
first worker exception at the call site. -/
def cpu_pool_map {A E R : Type} (train : A → Except E R) :
    List A → Except E (List (A × R))
  | [] => .ok []
  | t :: ts =>
      match optimize_parallel_cpu_private train t with
      | .error e => .error e
      | .ok r =>
          match cpu_pool_map train ts with
          | .error e => .error e
          | .ok rs => .ok (r :: rs)

/-- Claim C6: in the Pooled-CPU model a callback exception is not
isolated: the worker forwards the exception unchanged, and whenever any
trial's callback raises, the whole batch result at the entry point is an
error rather than a sequence recording the failure. -/
theorem c6_cpu_exception_propagates {A E R : Type} (train : A → Except E R)
    (trials : List A) :
    (∀ (t : A) (e : E), train t = .error e →
        optimize_parallel_cpu_private train t = .error e)
    ∧ ((∃ t ∈ trials, ∃ e, train t = .error e) →
        ∃ e, cpu_pool_map train trials = .error e) := by
  constructor
  · intro t e h
    simp [optimize_parallel_cpu_private, h]
  · intro ⟨t, ht, e, he⟩
    induction trials with
    | nil => cases ht
    | cons s ts ih =>
        rcases List.mem_cons.mp ht with h | h
        · subst h
          exact ⟨e, by simp [cpu_pool_map, optimize_parallel_cpu_private, he]⟩
        · cases hs : train s with
          | error e' =>
              exact ⟨e', by simp [cpu_pool_map, optimize_parallel_cpu_private, hs]⟩
          | ok r =>
              obtain ⟨e'', h''⟩ := ih h
              exact ⟨e'', by simp [cpu_pool_map, optimize_parallel_cpu_private, hs, h'']⟩

/-- Witness for C6: with the second of three callbacks raising, the CPU
batch aborts with that error. -/
theorem c6_cpu_exception_propagates_witness :
    ∃ e, cpu_pool_map
      (fun n => if n = 1 then Except.error "boom" else Except.ok n)
      [0, 1, 2] = .error e :=
  (c6_cpu_exception_propagates
      (fun n => if n = 1 then Except.error "boom" else Except.ok n)
      [0, 1, 2]).2 ⟨1, by decide, "boom", by simp⟩

/-- The dynamic value held by `OptArg.opt_values` after construction:
either a Python list, or the single numpy scalar produced by
`np.random.uniform(a, b)` called without a size argument. -/
inductive OptValues (V : Type) where
  | list (vs : List V)
  | scalar (v : V)
deriving DecidableEq, Repr

/-- The fields of an `OptArg` instance after `__init__` returns. -/
structure OptArgState (V : Type) where
  obj_id : String
  opt_values : OptValues V
  tunable : Bool
deriving DecidableEq, Repr

/-- `OptArg.__init__` over rational values, with numpy's samplers and the
math functions passed as oracles (`np_uniform_n` is
`np.random.uniform(low, high, nb_samples)`, `np_uniform` the size-less
scalar form, `math_log a b` is `math.log(a, b)`, `rpow b x` is `b ** x`).
`if nb_samples:` is Python truthiness, so both `None` and `0` skip the
sampling block. -/
def OptArg.init (obj_id : String) (opt_values : List ℚ) (nb_samples : Option Nat)
    (tunable : Bool) (log_base : Option ℚ)
    (np_uniform_n : ℚ → ℚ → Nat → List ℚ) (np_uniform : ℚ → ℚ → ℚ)
    (math_log : ℚ → ℚ → ℚ) (rpow : ℚ → ℚ → ℚ) : Except PyErr (OptArgState ℚ) :=
  let self_values : OptValues ℚ := .list opt_values
  if nb_samples.getD 0 ≠ 0 then
    match opt_values with
    | [low, high] =>
        match log_base with
        | none =>
            -- Source has `opt_values = np.random.uniform(low, high, nb_samples)`,
            -- which rebinds the local name only: `self.opt_values` keeps the
            -- raw `[low, high]` pair and the sampled array is discarded.
            let _discarded := np_uniform_n low high (nb_samples.getD 0)
            .ok ⟨obj_id, self_values, tunable⟩
        | some b =>
            if high ≥ low ∧ low > 0 then
              -- `np.random.uniform(log_low, log_high)` has no size argument,
              -- so `self.opt_values` becomes a single scalar here.
              .ok ⟨obj_id,
                .scalar (rpow b (np_uniform (math_log low b) (math_log high b))),
                tunable⟩
            else
              .error (.assertionError
                "opt_values must be positive to do log-scale search.")
    | _ => .error .unpackError
  else .ok ⟨obj_id, self_values, tunable⟩

/-- `HyperOptArgumentParser.opt_range`: registers the flag (argparse side
not modelled here) and stores `OptArg(obj_id=arg_name,
opt_values=[low, high], nb_samples=..., tunable=..., log_base=...)`
under the flag string in `self.opt_args`.  In the source `nb_samples`
defaults to 10. -/
def opt_range (opt_args : List (String × OptArgState ℚ)) (arg_name : String)
    (low high : ℚ) (nb_samples : Nat) (tunable : Bool) (log_base : Option ℚ)
    (np_uniform_n : ℚ → ℚ → Nat → List ℚ) (np_uniform : ℚ → ℚ → ℚ)
    (math_log : ℚ → ℚ → ℚ) (rpow : ℚ → ℚ → ℚ) :
    Except PyErr (List (String × OptArgState ℚ)) :=
  match OptArg.init arg_name [low, high] (some nb_samples) tunable log_base
      np_uniform_n np_uniform math_log rpow with
  | .error e => .error e
  | .ok a => .ok (dictSet opt_args arg_name a)

/-- Claim C3 (code bug): contrary to the spec, no candidate set of size
`nb_samples` is materialized at declaration time.  On the uniform path
the sampled array is bound to the local `opt_values` and discarded, so
the stored candidate list is the raw two-element `[low, high]` bound
regardless of the sampler; on the log path the stored value is a single
scalar, not a list of `nb_samples` values.  Evaluated at the failing
input `low = 1, high = 2, nb_samples = 10` (and `log_base = 10` for the
log path). -/
theorem c3_no_candidate_materialization :
    ∀ (np_uniform_n : ℚ → ℚ → Nat → List ℚ) (np_uniform : ℚ → ℚ → ℚ)
      (math_log : ℚ → ℚ → ℚ) (rpow : ℚ → ℚ → ℚ),
      OptArg.init "learning_rate" [1, 2] (some 10) true none
          np_uniform_n np_uniform math_log rpow
        = .ok ⟨"learning_rate", .list [1, 2], true⟩
      ∧ OptArg.init "learning_rate" [1, 10] (some 10) true (some 10)
          np_uniform_n np_uniform math_log rpow
        = .ok ⟨"learning_rate",
            .scalar (rpow 10 (np_uniform (math_log 1 10) (math_log 10 10))), true⟩ := by
  intro u1 u2 lg pw
  constructor
  · simp [OptArg.init]
  · norm_num [OptArg.init]

/-- Claim C8 (amended): declaring a log-scale range whose bounds violate
`0 < low ≤ high` fails inside `opt_range` itself — before the strategy
engine or any trial generation is reached — with the declaration-time
configuration error (the source's `AssertionError` guard; the spec's
`ConfigError`), *provided the requested sample count is nonzero* (the
source default is 10).  The proviso is forced: the assert lives inside
`if nb_samples:`, so an explicit `nb_samples=0` (or `None`) skips the
whole sampling block and the bad-bounds declaration succeeds — see the
counterexample to the unconditional claim. -/
theorem c8_log_range_bad_bounds_fail (opt_args : List (String × OptArgState ℚ))
    (arg_name : String) (low high : ℚ) (nb_samples : Nat) (tunable : Bool) (b : ℚ)
    (np_uniform_n : ℚ → ℚ → Nat → List ℚ) (np_uniform : ℚ → ℚ → ℚ)
    (math_log : ℚ → ℚ → ℚ) (rpow : ℚ → ℚ → ℚ)
    (hn : nb_samples ≠ 0) (hbad : ¬ (0 < low ∧ low ≤ high)) :
    opt_range opt_args arg_name low high nb_samples tunable (some b)
        np_uniform_n np_uniform math_log rpow
      = .error (.assertionError
          "opt_values must be positive to do log-scale search.") := by
  have hb : ¬ (high ≥ low ∧ low > 0) := by
    intro ⟨h1, h2⟩
    exact hbad ⟨h2, h1⟩
  simp [opt_range, OptArg.init, hn, hb]

/-- Witness for C8: a log-scale range with `low = 0` fails at
declaration. -/
theorem c8_log_range_bad_bounds_fail_witness :
    opt_range [] "--learning_rate" 0 1 10 true (some 10)
        (fun _ _ _ => []) (fun _ _ => 0) (fun _ _ => 0) (fun _ _ => 0)
      = .error (.assertionError
          "opt_values must be positive to do log-scale search.") :=
  c8_log_range_bad_bounds_fail [] "--learning_rate" 0 1 10 true 10
    (fun _ _ _ => []) (fun _ _ => 0) (fun _ _ => 0) (fun _ _ => 0)
    (by decide) (by norm_num)

/-- Counterexample to C8 as stated: at the concrete declaration
`opt_range(low=0, high=1, nb_samples=0, log_base=10)` the bounds violate
`0 < low ≤ high`, yet `if nb_samples:` is false, the assert is skipped,
and the declaration succeeds — it does not fail at declaration time. -/
theorem c8_log_range_bad_bounds_fail_counterexample :
    ¬ (0 < (0 : ℚ) ∧ (0 : ℚ) ≤ 1)
    ∧ opt_range [] "--learning_rate" 0 1 0 true (some 10)
        (fun _ _ _ => []) (fun _ _ => 0) (fun _ _ => 0) (fun _ _ => 0)
      = .ok [("--learning_rate",
          ⟨"--learning_rate", OptValues.list [0, 1], true⟩)] := by
  constructor
  · norm_num
  · rfl

/-- `re.sub('-', '', s)`: the flag string with every dash deleted.  This
is the `clean_name` recorded by `__flatten_params` (and the key produced
by `json_config`). -/
def sub_dashes (s : String) : String :=
  ⟨s.data.filter (fun c => c != '-')⟩

/-- Modelled from the spec: argparse itself is an external collaborator
not under `src/`; per the claim, `parse_args` stores a flag's value
under argparse's destination name — the flag with its leading dashes
stripped and every interior dash replaced by an underscore. -/
def argparse_dest (s : String) : String :=
  ⟨(s.data.dropWhile (fun c => c == '-')).map (fun c => if c == '-' then '_' else c)⟩

/-- `HyperOptArgumentParser.opt_list`: registers the flag (argparse side
not modelled here) and stores
`OptArg(obj_id=arg_name, opt_values=options, tunable=tunable)` under the
raw flag string `args[-1]` in `self.opt_args`. -/
def opt_list {V : Type} (opt_args : List (String × OptArgState V))
    (arg_name : String) (options : List V) (tunable : Bool) :
    List (String × OptArgState V) :=
  dictSet opt_args arg_name ⟨arg_name, .list options, tunable⟩

/-- `HyperOptArgumentParser.__flatten_params`, tracking the enumeration
index `i` over all declared opt args: each tunable arg contributes one
group of `{'idx': i, 'val': val, 'name': clean_name}` records, one per
stored candidate value; iterating a scalar `opt_values` (the log-range
case) raises a `TypeError`. -/
def flatten_params_from {V : Type} :
    Nat → List (String × OptArgState V) → Except PyErr (List (List (FlatParam V)))
  | _, [] => .ok []
  | i, (opt_name, opt_arg) :: rest =>
      if opt_arg.tunable then
        match opt_arg.opt_values with
        | .scalar _ => .error (.typeError "object is not iterable")
        | .list vs =>
            match flatten_params_from (i + 1) rest with
            | .error e => .error e
            | .ok groups =>
                .ok ((vs.map (fun v => ⟨i, v, sub_dashes opt_name⟩)) :: groups)
      else flatten_params_from (i + 1) rest

/-- `HyperOptArgumentParser.__flatten_params` proper. -/
def flatten_params {V : Type} (params : List (String × OptArgState V)) :
    Except PyErr (List (List (FlatParam V))) :=
  flatten_params_from 0 params

theorem length_filter_ne_dash_le (l : List Char) :
    (l.filter (fun c => c != '-')).length ≤ l.length :=
  List.length_filter_le _ l

theorem length_filter_ne_dash_lt (l : List Char) (h : '-' ∈ l) :
    (l.filter (fun c => c != '-')).length < l.length := by
  induction l with
  | nil => cases h
  | cons c t ih =>
      by_cases hc : c = '-'
      · subst hc
        simp only [List.filter_cons]
        norm_num
        calc (t.filter (fun c => c != '-')).length
            ≤ t.length := length_filter_ne_dash_le t
          _ < t.length + 1 := Nat.lt_succ_self _
      · have ht : '-' ∈ t := by
          rcases List.mem_cons.mp h with h' | h'
          · exact absurd h'.symm hc
          · exact h'
        simp only [List.filter_cons, if_pos (by simp [hc] : (c != '-') = true)]
        simpa using Nat.succ_lt_succ (ih ht)

theorem filter_dropWhile_dash (l : List Char) :
    l.filter (fun c => c != '-')
      = (l.dropWhile (fun c => c == '-')).filter (fun c => c != '-') := by
  induction l with
  | nil => rfl
  | cons c t ih =>
      by_cases hc : c = '-'
      · subst hc
        simpa [List.filter_cons, List.dropWhile_cons] using ih
      · simp [List.filter_cons, List.dropWhile_cons, hc]

/-- Claim C9: for a tunable flag whose name still contains a dash after
the leading dashes (like `--my-rate`), the name recorded in the
flattened groups is the flag with every dash deleted, the parsed base
configuration holds the value under argparse's destination name, the
two names differ, and so the per-trial configuration keeps the base
value untouched under the destination name while merely gaining the
dash-free key with the trial value — the trial value never overrides
the base entry. -/
theorem c9_dashed_flag_never_overrides {V : Type} (flag : String)
    (hdash : '-' ∈ flag.data.dropWhile (fun c => c == '-'))
    (i : Nat) (v : V) (base : List (String × V)) (options : List V) :
    sub_dashes flag ≠ argparse_dest flag
    ∧ flatten_params (opt_list [] flag options true)
        = .ok [options.map (fun o => ⟨0, o, sub_dashes flag⟩)]
    ∧ dictGet (namespace_from_trial base [⟨i, v, sub_dashes flag⟩])
        (sub_dashes flag) = some v
    ∧ dictGet (namespace_from_trial base [⟨i, v, sub_dashes flag⟩])
        (argparse_dest flag) = dictGet base (argparse_dest flag) := by
  have hlen : (sub_dashes flag).data.length < (argparse_dest flag).data.length := by
    show (flag.data.filter (fun c => c != '-')).length
        < ((flag.data.dropWhile (fun c => c == '-')).map
            (fun c => if c == '-' then '_' else c)).length
    rw [List.length_map, filter_dropWhile_dash]
    exact length_filter_ne_dash_lt _ hdash
  have hne : sub_dashes flag ≠ argparse_dest flag := by
    intro heq
    rw [heq] at hlen
    exact Nat.lt_irrefl _ hlen
  refine ⟨hne, by simp [flatten_params, flatten_params_from, opt_list, dictSet], ?_, ?_⟩
  · apply parsedFold_preserve
    show dictGet (dictSet [] (sub_dashes flag) v) (sub_dashes flag) = some v
    exact dictGet_dictSet_self _ _ _
  · apply parsedFold_absent
    show dictGet (dictSet [] (sub_dashes flag) v) (argparse_dest flag) = none
    simp [dictSet, dictGet, hne]

/-- Witness for C9 at the flag `--my-rate`: the trial key is `myrate`,
the base key `my_rate` keeps its value. -/
theorem c9_dashed_flag_never_overrides_witness :
    sub_dashes "--my-rate" ≠ argparse_dest "--my-rate"
    ∧ flatten_params (opt_list [] "--my-rate" [2, 3] true)
        = .ok [[2, 3].map (fun o => ⟨0, o, sub_dashes "--my-rate"⟩)]
    ∧ dictGet (namespace_from_trial [("my_rate", 1)]
        [(⟨0, 5, sub_dashes "--my-rate"⟩ : FlatParam Nat)])
        (sub_dashes "--my-rate") = some 5
    ∧ dictGet (namespace_from_trial [("my_rate", 1)]
        [(⟨0, 5, sub_dashes "--my-rate"⟩ : FlatParam Nat)])
        (argparse_dest "--my-rate") = dictGet [("my_rate", 1)]
        (argparse_dest "--my-rate") :=
  c9_dashed_flag_never_overrides "--my-rate" (by decide) 0 5 [("my_rate", 1)] [2, 3]

/-- The batch slicing `[self.trials[i:i + nb_parallel] for i in
range(0, len(self.trials), nb_parallel)]`.  The `0` case is unreachable
from `optimize_parallel`, which raises before slicing when
`nb_parallel = 0` (Python `range` rejects a zero step). -/
def fork_batches {A : Type} : Nat → List A → List (List A)
  | _, [] => []
  | 0, _ :: _ => []
  | p + 1, a :: l =>
      ((a :: l).take (p + 1)) :: fork_batches (p + 1) ((a :: l).drop (p + 1))
termination_by _p l => l.length
decreasing_by
  simp only [List.length_drop, List.length_cons]
  omega

/-- An observable event of the forked-batch run: `spawn parallel_nb ns`
is the fork of the child that invokes
`train_function(ns, parallel_nb)` and exits, `wait i` is the parent's
`os.waitpid` on the batch's `i`-th child. -/
inductive FEvent (N : Type) where
  | spawn (parallel_nb : Nat) (ns : N)
  | wait (child : Nat)
deriving DecidableEq, Repr

/-- The event block one batch contributes: a spawn per trial, carrying
the trial's built namespace and its positional index in the batch, then
a wait per child. -/
def batch_events {V : Type} (parsed_args : List (String × V))
    (fork_batch : List (List (FlatParam V))) :
    List (FEvent (List (String × V))) :=
  fork_batch.enum.map
    (fun x => FEvent.spawn x.1 (namespace_from_trial parsed_args x.2))
  ++ (List.range fork_batch.length).map FEvent.wait

/-- `HyperOptArgumentParser.optimize_parallel` as a trace semantics: the
function returns `None` (here `Unit`) and, per batch in order, forks one
child per trial (the child invokes the callback with the built
namespace and its batch position after a staggered delay, then
`os._exit(0)`) and then waits for every child of the batch before
starting the next batch. -/
def optimize_parallel {V : Type} (parsed_args : List (String × V))
    (trials : List (List (FlatParam V))) (nb_parallel : Nat) :
    Except PyErr (List (FEvent (List (String × V))) × Unit) :=
  if nb_parallel = 0 then .error (.valueError "range() arg 3 must not be zero")
  else
    .ok ((fork_batches nb_parallel trials).foldl
      (fun acc fork_batch => acc ++ batch_events parsed_args fork_batch) [], ())

theorem fork_batches_join {A : Type} (p : Nat) (l : List A) (hp : p ≠ 0) :
    (fork_batches p l).flatten = l := by
  induction p, l using fork_batches.induct with
  | case1 => simp [fork_batches]
  | case2 => exact absurd rfl hp
  | case3 q a l ih =>
      simp only [fork_batches, List.flatten_cons]
      rw [ih (by omega)]
      exact List.take_append_drop _ _

theorem fork_batches_eq_nil_iff {A : Type} (p : Nat) (l : List A) (hp : p ≠ 0) :
    fork_batches p l = [] ↔ l = [] := by
  cases l with
  | nil => simp [fork_batches]
  | cons a t =>
      cases p with
      | zero => exact absurd rfl hp
      | succ q => simp [fork_batches]

theorem fork_batches_length {A : Type} (p : Nat) (l : List A) (hp : p ≠ 0) :
    (fork_batches p l).length = (l.length + p - 1) / p := by
  induction p, l using fork_batches.induct with
  | case1 p =>
      cases p with
      | zero => exact absurd rfl hp
      | succ q =>
          simp only [fork_batches, List.length_nil]
          rw [Nat.div_eq_of_lt (by omega)]
  | case2 => exact absurd rfl hp
  | case3 q a l ih =>
      simp only [fork_batches, List.length_cons, List.length_drop,
        Nat.succ_eq_add_one] at ih ⊢
      rw [ih (by omega)]
      rcases le_or_lt l.length q with hle | hlt
      · have e1 : l.length + 1 - (q + 1) + (q + 1) - 1 = q := by omega
        have e2 : l.length + 1 + (q + 1) - 1 = l.length + 1 + q := by omega
        rw [e1, e2]
        have d1 : q / (q + 1) = 0 := Nat.div_eq_of_lt (by omega)
        have d2 : (l.length + 1 + q) / (q + 1) = 1 := by
          apply Nat.div_eq_of_lt_le
          · omega
          · omega
        rw [d1, d2]
      · have e1 : l.length + 1 - (q + 1) + (q + 1) - 1 = l.length - q + q := by omega
        have e2 : l.length + 1 + (q + 1) - 1 = (l.length - q + q) + (q + 1) := by
          omega
        rw [e1, e2, Nat.add_div_right _ (by omega)]

theorem fork_batches_mem {A : Type} (p : Nat) (l : List A) (hp : p ≠ 0)
    (b : List A) (hb : b ∈ fork_batches p l) : b ≠ [] ∧ b.length ≤ p := by
  induction p, l using fork_batches.induct with
  | case1 =>
      simp only [fork_batches, List.not_mem_nil] at hb
  | case2 => exact absurd rfl hp
  | case3 q a l ih =>
      simp only [fork_batches, List.mem_cons] at hb
      rcases hb with h | h
      · subst h
        refine ⟨by simp [List.take], ?_⟩
        rw [List.length_take]
        exact Nat.min_le_left _ _
      · exact ih (by omega) h

theorem fork_batches_full_but_last {A : Type} (p : Nat) (l : List A) (hp : p ≠ 0) :
    ∀ b ∈ (fork_batches p l).dropLast, b.length = p := by
  induction p, l using fork_batches.induct with
  | case1 => intro b hb; simp [fork_batches] at hb
  | case2 => exact absurd rfl hp
  | case3 q a l ih =>
      intro b hb
      simp only [fork_batches] at hb
      cases hrec : fork_batches (q + 1) ((a :: l).drop (q + 1)) with
      | nil =>
          rw [hrec] at hb
          simp [List.dropLast] at hb
      | cons r rs =>
          rw [hrec] at hb
          have hdrop : (a :: l).drop (q + 1) ≠ [] := by
            intro hnil
            rw [(fork_batches_eq_nil_iff _ _ (by omega)).mpr hnil] at hrec
            cases hrec
          have hlen : q + 1 < (a :: l).length := by
            by_contra hc
            exact hdrop (List.drop_eq_nil_of_le (by omega))
          simp only [List.dropLast_cons₂, List.mem_cons] at hb
          rcases hb with h | h
          · subst h
            rw [List.length_take]
            omega
          · rw [← hrec] at h
            exact ih (by omega) b h

theorem foldl_batch_events {V : Type} (parsed_args : List (String × V))
    (bs : List (List (List (FlatParam V))))
    (acc : List (FEvent (List (String × V)))) :
    bs.foldl (fun acc fork_batch => acc ++ batch_events parsed_args fork_batch) acc
      = acc ++ (bs.map (batch_events parsed_args)).flatten := by
  induction bs generalizing acc with
  | nil => simp
  | cons b rest ih => simp [ih, List.append_assoc]

/-- Claim C7: with parallelism `p > 0`, `optimize_parallel` partitions
the trials into consecutive batches — `ceil(N / p)` of them, each batch
nonempty of size at most `p`, every batch except possibly the last of
size exactly `p`, their concatenation the original trial list — and its
event trace is exactly, batch after batch, the spawns (each child
invoking the callback with its trial's namespace and its positional
index in the batch) followed by the waits for every child of that batch,
so no child of batch `k + 1` is forked before every child of batch `k`
has been waited for; the entry point returns `()` — no collected
result. -/
theorem c7_forked_batches {V : Type} (parsed_args : List (String × V))
    (trials : List (List (FlatParam V))) (p : Nat) (hp : 0 < p) :
    optimize_parallel parsed_args trials p
      = .ok (((fork_batches p trials).map (batch_events parsed_args)).flatten, ())
    ∧ (fork_batches p trials).length = (trials.length + p - 1) / p
    ∧ (fork_batches p trials).flatten = trials
    ∧ (∀ b ∈ fork_batches p trials, b ≠ [] ∧ b.length ≤ p)
    ∧ (∀ b ∈ (fork_batches p trials).dropLast, b.length = p) := by
  refine ⟨?_, fork_batches_length p trials (by omega),
    fork_batches_join p trials (by omega),
    fun b hb => fork_batches_mem p trials (by omega) b hb,
    fork_batches_full_but_last p trials (by omega)⟩
  rw [optimize_parallel, if_neg (by omega)]
  rw [foldl_batch_events]
  rfl

/-- Witness for C7 at the spec's example: parallelism 2 over 5 trials
gives 3 batches of sizes 2, 2, 1. -/
theorem c7_forked_batches_witness :
    (optimize_parallel ([("a", 1)] : List (String × Nat)) [[], [], [], [], []] 2
      = .ok (((fork_batches 2 [[], [], [], [], []]).map
          (batch_events [("a", 1)])).flatten, ())
    ∧ (fork_batches 2 ([[], [], [], [], []] :
        List (List (FlatParam Nat)))).length = (5 + 2 - 1) / 2
    ∧ (fork_batches 2 ([[], [], [], [], []] :
        List (List (FlatParam Nat)))).flatten = [[], [], [], [], []]
    ∧ (∀ b ∈ fork_batches 2 ([[], [], [], [], []] :
        List (List (FlatParam Nat))), b ≠ [] ∧ b.length ≤ 2)
    ∧ (∀ b ∈ (fork_batches 2 ([[], [], [], [], []] :
        List (List (FlatParam Nat)))).dropLast, b.length = 2)) :=
  c7_forked_batches [("a", 1)] [[], [], [], [], []] 2 (by decide)

/-- A heap of Python dict objects, addressed by allocation index.  Used
to state frame properties of `__namespace_from_trial`: the parsed-args
snapshot (`self.parsed_args`, the deep copy taken by `parse_args`) lives
at one reference, and each build call allocates a fresh dict. -/
structure Store (V : Type) where
  dicts : List (List (String × V))
deriving DecidableEq, Repr

/-- Read the dict object at reference `r`. -/
def dget {V : Type} (s : Store V) (r : Nat) : List (String × V) :=
  s.dicts.getD r []

/-- Overwrite the dict object at reference `r`. -/
def dset {V : Type} (s : Store V) (r : Nat) (d : List (String × V)) : Store V :=
  ⟨s.dicts.set r d⟩

/-- `__namespace_from_trial` against the heap: allocate a fresh dict for
`trial_dict` (at the next free reference), populate it from the trial
records, then copy in every `self.parsed_args` entry whose key is still
absent.  All writes target the fresh reference; `parsed_ref` is only
read. -/
def namespace_from_trial_heap {V : Type} (s : Store V) (parsed_ref : Nat)
    (trial : List (FlatParam V)) : Store V × Nat :=
  let tref := s.dicts.length
  let s1 : Store V := ⟨s.dicts ++ [[]]⟩
  let s2 := trial.foldl
    (fun st a => dset st tref (dictSet (dget st tref) a.name a.val)) s1
  let s3 := (dget s2 parsed_ref).foldl
    (fun st kv => if (dictGet (dget st tref) kv.1).isSome then st
      else dset st tref (dictSet (dget st tref) kv.1 kv.2)) s2
  (s3, tref)

/-- A sequence of build calls against the same parsed-args snapshot,
returning the final heap and the references handed back, in order. -/
def build_seq {V : Type} : Store V → Nat → List (List (FlatParam V)) →
    Store V × List Nat
  | s, _, [] => (s, [])
  | s, parsed_ref, t :: ts =>
      let p1 := namespace_from_trial_heap s parsed_ref t
      let p2 := build_seq p1.1 parsed_ref ts
      (p2.1, p1.2 :: p2.2)

theorem store_getD_append_left {α : Type} (base tail : List α) (i : Nat) (e : α)
    (h : i < base.length) : (base ++ tail).getD i e = base.getD i e := by
  induction base generalizing i with
  | nil => simp at h
  | cons a t ih =>
      cases i with
      | zero => rfl
      | succ j =>
          simp only [List.cons_append, List.getD_cons_succ]
          exact ih j (by simpa using h)

theorem store_getD_append_right {α : Type} (base tail : List α) (i : Nat) (e : α) :
    (base ++ tail).getD (base.length + i) e = tail.getD i e := by
  induction base with
  | nil => simp
  | cons a t ih =>
      simp only [List.cons_append, List.length_cons]
      rw [show t.length + 1 + i = (t.length + i) + 1 by omega, List.getD_cons_succ]
      exact ih

theorem store_getD_snoc {α : Type} (base : List α) (d : α) (e : α) :
    (base ++ [d]).getD base.length e = d := by
  have h := store_getD_append_right base [d] 0 e
  simp only [Nat.add_zero] at h
  rw [h]
  rfl

theorem store_set_snoc {α : Type} (base : List α) (d x : α) :
    (base ++ [d]).set base.length x = base ++ [x] := by
  induction base with
  | nil => rfl
  | cons a t ih => simp [List.set, ih]

/-- The trial-populating fold only rewrites the freshly allocated dict at
the end of the heap, mirroring the pure fold. -/
theorem heap_fold_trial {V : Type} (base : List (List (String × V)))
    (d : List (String × V)) (trial : List (FlatParam V)) :
    trial.foldl
      (fun st a => dset st base.length (dictSet (dget st base.length) a.name a.val))
      (⟨base ++ [d]⟩ : Store V)
      = ⟨base ++ [trial.foldl (fun d a => dictSet d a.name a.val) d]⟩ := by
  induction trial generalizing d with
  | nil => rfl
  | cons a rest ih =>
      simp only [List.foldl_cons]
      have hstep : dset (⟨base ++ [d]⟩ : Store V) base.length
          (dictSet (dget (⟨base ++ [d]⟩ : Store V) base.length) a.name a.val)
          = (⟨base ++ [dictSet d a.name a.val]⟩ : Store V) := by
        rw [show dget (⟨base ++ [d]⟩ : Store V) base.length = d from
          store_getD_snoc base d []]
        show (⟨(base ++ [d]).set base.length (dictSet d a.name a.val)⟩ : Store V) = _
        rw [store_set_snoc]
      rw [hstep, ih]

/-- The parsed-copying fold likewise only rewrites the fresh dict. -/
theorem heap_fold_parsed {V : Type} (base : List (List (String × V)))
    (d : List (String × V)) (parsed : List (String × V)) :
    parsed.foldl
      (fun st kv => if (dictGet (dget st base.length) kv.1).isSome then st
        else dset st base.length (dictSet (dget st base.length) kv.1 kv.2))
      (⟨base ++ [d]⟩ : Store V)
      = ⟨base ++ [parsed.foldl
          (fun d kv => if (dictGet d kv.1).isSome then d else dictSet d kv.1 kv.2)
          d]⟩ := by
  induction parsed generalizing d with
  | nil => rfl
  | cons kv rest ih =>
      simp only [List.foldl_cons]
      rw [show dget (⟨base ++ [d]⟩ : Store V) base.length = d from
        store_getD_snoc base d []]
      by_cases hs : (dictGet d kv.1).isSome
      · rw [if_pos hs, if_pos hs, ih]
      · rw [if_neg hs, if_neg hs]
        have hstep : dset (⟨base ++ [d]⟩ : Store V) base.length
            (dictSet d kv.1 kv.2)
            = (⟨base ++ [dictSet d kv.1 kv.2]⟩ : Store V) := by
          show (⟨(base ++ [d]).set base.length (dictSet d kv.1 kv.2)⟩ : Store V) = _
          rw [store_set_snoc]
        rw [hstep, ih]

/-- One heap build call appends exactly one dict — the pure
`namespace_from_trial` of the unchanged snapshot — and returns its fresh
reference. -/
theorem namespace_from_trial_heap_shape {V : Type} (s : Store V) (parsed_ref : Nat)
    (trial : List (FlatParam V)) (h : parsed_ref < s.dicts.length) :
    namespace_from_trial_heap s parsed_ref trial
      = (⟨s.dicts ++ [namespace_from_trial (dget s parsed_ref) trial]⟩,
         s.dicts.length) := by
  simp only [namespace_from_trial_heap, namespace_from_trial]
  rw [heap_fold_trial]
  have hp : dget (⟨s.dicts ++ [trial.foldl (fun d a => dictSet d a.name a.val) []]⟩
      : Store V) parsed_ref = dget s parsed_ref := by
    show (s.dicts ++ _).getD parsed_ref [] = s.dicts.getD parsed_ref []
    exact store_getD_append_left _ _ _ _ h
  rw [hp, heap_fold_parsed]

theorem range_map_shift (L n : Nat) :
    (List.range (n + 1)).map (fun i => L + i)
      = L :: (List.range n).map (fun i => L + 1 + i) := by
  rw [List.range_succ_eq_map, List.map_cons, List.map_map]
  have hf : ((fun i => L + i) ∘ Nat.succ) = (fun i => L + 1 + i) := by
    funext i
    simp only [Function.comp_apply]
    omega
  rw [hf]
  norm_num

/-- The whole build sequence appends one pure namespace per trial and
hands back the consecutive fresh references. -/
theorem build_seq_eq {V : Type} (s : Store V) (parsed_ref : Nat)
    (ts : List (List (FlatParam V))) (h : parsed_ref < s.dicts.length) :
    build_seq s parsed_ref ts
      = (⟨s.dicts ++ ts.map (fun t => namespace_from_trial (dget s parsed_ref) t)⟩,
         (List.range ts.length).map (fun i => s.dicts.length + i)) := by
  induction ts generalizing s with
  | nil => simp [build_seq]
  | cons t ts ih =>
      have h' : parsed_ref <
          (⟨s.dicts ++ [namespace_from_trial (dget s parsed_ref) t]⟩
            : Store V).dicts.length := by
        show parsed_ref < (s.dicts ++ _).length
        rw [List.length_append]
        omega
      have hget : dget (⟨s.dicts ++ [namespace_from_trial (dget s parsed_ref) t]⟩
          : Store V) parsed_ref = dget s parsed_ref := by
        show (s.dicts ++ _).getD parsed_ref [] = s.dicts.getD parsed_ref []
        exact store_getD_append_left _ _ _ _ h
      simp only [build_seq]
      rw [namespace_from_trial_heap_shape s parsed_ref t h, ih _ h', hget]
      dsimp only
      rw [List.length_cons, range_map_shift]
      simp [List.append_assoc, List.length_append]

theorem getD_map_lt {α β : Type} (f : α → β) (ts : List α) (i : Nat)
    (hi : i < ts.length) (e : β) :
    (ts.map f).getD i e = f (ts.get ⟨i, hi⟩) := by
  induction ts generalizing i with
  | nil => simp at hi
  | cons a t ih =>
      cases i with
      | zero => rfl
      | succ j =>
          simp only [List.map_cons, List.getD_cons_succ]
          exact ih j (by simpa using hi)

/-- Claim C5: building per-trial configurations never mutates the
parsed-args snapshot: after any sequence of build calls the dict at the
snapshot reference is unchanged, every call hands back a fresh reference
(all distinct, none the snapshot's, the `i`-th being the `i`-th newly
allocated slot), and the dict stored at the `i`-th returned reference in
the final heap is exactly the pure merge of the `i`-th trial over the
untouched snapshot — so no call's result aliases the snapshot or a
previous result. -/
theorem c5_build_never_mutates_snapshot {V : Type} (s : Store V)
    (parsed_ref : Nat) (ts : List (List (FlatParam V)))
    (h : parsed_ref < s.dicts.length) :
    dget (build_seq s parsed_ref ts).1 parsed_ref = dget s parsed_ref
    ∧ (build_seq s parsed_ref ts).2.Nodup
    ∧ (∀ r ∈ (build_seq s parsed_ref ts).2, parsed_ref < r)
    ∧ (∀ i (hi : i < ts.length),
        (build_seq s parsed_ref ts).2.getD i 0 = s.dicts.length + i
        ∧ dget (build_seq s parsed_ref ts).1 (s.dicts.length + i)
            = namespace_from_trial (dget s parsed_ref) (ts.get ⟨i, hi⟩)) := by
  rw [build_seq_eq s parsed_ref ts h]
  refine ⟨?_, ?_, ?_, ?_⟩
  · show (s.dicts ++ _).getD parsed_ref [] = s.dicts.getD parsed_ref []
    exact store_getD_append_left _ _ _ _ h
  · exact List.Nodup.map (fun a b hab => by omega) (List.nodup_range _)
  · intro r hr
    obtain ⟨i, _, rfl⟩ := List.mem_map.mp hr
    omega
  · intro i hi
    constructor
    · rw [getD_map_lt _ _ i (by simpa using hi) 0]
      simp
    · show (s.dicts ++ _).getD (s.dicts.length + i) [] = _
      rw [store_getD_append_right]
      exact getD_map_lt _ ts i hi []

/-- Witness for C5: one build call over the snapshot `{a: 1}` stored at
reference 0. -/
theorem c5_build_never_mutates_snapshot_witness :
    dget (build_seq (⟨[[("a", 1)]]⟩ : Store Nat) 0 [[⟨0, 5, "b"⟩]]).1 0
      = dget (⟨[[("a", 1)]]⟩ : Store Nat) 0
    ∧ (build_seq (⟨[[("a", 1)]]⟩ : Store Nat) 0 [[⟨0, 5, "b"⟩]]).2.Nodup
    ∧ (∀ r ∈ (build_seq (⟨[[("a", 1)]]⟩ : Store Nat) 0 [[⟨0, 5, "b"⟩]]).2, 0 < r)
    ∧ (∀ i (hi : i < [[(⟨0, 5, "b"⟩ : FlatParam Nat)]].length),
        (build_seq (⟨[[("a", 1)]]⟩ : Store Nat) 0 [[⟨0, 5, "b"⟩]]).2.getD i 0
          = (⟨[[("a", 1)]]⟩ : Store Nat).dicts.length + i
        ∧ dget (build_seq (⟨[[("a", 1)]]⟩ : Store Nat) 0 [[⟨0, 5, "b"⟩]]).1
            ((⟨[[("a", 1)]]⟩ : Store Nat).dicts.length + i)
            = namespace_from_trial (dget (⟨[[("a", 1)]]⟩ : Store Nat) 0)
                ([[⟨0, 5, "b"⟩]].get ⟨i, hi⟩)) :=
  c5_build_never_mutates_snapshot (⟨[[("a", 1)]]⟩ : Store Nat) 0
    [[⟨0, 5, "b"⟩]] (by decide)

/-- The state of `self.pool` once it exists: the GPU-id queue the
workers' initializer captured (`none` when the pool was created by the
CPU path, which installs no `g_gpu_id_q`), and the worker count the pool
was built with. -/
structure PoolHandle where
  gpu_q : Option (List String)
  processes : Nat
deriving DecidableEq, Repr

/-- The visible outcome of a Pooled-GPU entry call: the collected
results, a forever-blocked run (empty token queue), or the `NameError`
every worker raises when `g_gpu_id_q` was never installed (pool first
created by the CPU path). -/
inductive GpuRunResult (A R : Type) where
  | results (rs : List (A × Option R))
  | hang
  | nameError
deriving DecidableEq, Repr

/-- `HyperOptArgumentParser.optimize_parallel_gpu` over the parser's pool
field: the pool (and its token queue, seeded from `gpu_ids`) is built
only when `self.pool is None`; otherwise the existing pool — and
whatever queue its workers captured at creation — is used and the
`gpu_ids` / `nb_workers` arguments are dead.  The missing-`g_gpu_id_q`
`NameError` is raised per worker invocation (`g_gpu_id_q.get` precedes
the `try`), so `pool.map` over an empty trial list returns `[]` without
any worker running; only a nonempty list reaches the lookup and
propagates the `NameError`. -/
def optimize_parallel_gpu {A E R : Type} (pool : Option PoolHandle)
    (train : A → Except E R) (trials : List A) (gpu_ids : List String)
    (nb_workers : Nat) : Option PoolHandle × GpuRunResult A R :=
  let p : PoolHandle := match pool with
    | none => { gpu_q := some gpu_ids, processes := nb_workers }
    | some p => p
  match p.gpu_q with
  | none =>
      match trials with
      | [] => (some p, .results [])
      | _ :: _ => (some p, .nameError)
  | some q =>
      match gpu_pool_map train trials q with
      | none => (some p, .hang)
      | some (rs, q') => (some { p with gpu_q := some q' }, .results rs)

/-- `HyperOptArgumentParser.optimize_parallel_cpu` over the pool field:
creates a queue-less pool when none exists, then maps the CPU worker. -/
def optimize_parallel_cpu {A E R : Type} (pool : Option PoolHandle)
    (train : A → Except E R) (trials : List A) (nb_workers : Nat) :
    Option PoolHandle × Except E (List (A × R)) :=
  let p : PoolHandle := match pool with
    | none => { gpu_q := none, processes := nb_workers }
    | some p => p
  (some p, cpu_pool_map train trials)

/-- Claim C10: the pool is created only when the pool field is `none` and
never re-created: a first GPU call behaves exactly like a call on a pool
already seeded from its `gpu_ids` and `nb_workers`; once a pool exists,
the `gpu_ids` and `nb_workers` arguments of a later GPU call have no
effect whatsoever on state or results; a pool first created by the CPU
path carries no token queue, so as soon as any worker runs (a nonempty
trial list) a later GPU call hits the missing `g_gpu_id_q` instead of
any queue built from its own arguments — while an empty trial list maps
to `[]` with no worker ever touching the queue. -/
theorem c10_pool_created_once {A E R : Type} :
    (∀ (train : A → Except E R) (trials : List A) (gpu_ids gpu_ids' : List String)
        (nb_workers nb_workers' : Nat),
      optimize_parallel_gpu none train trials gpu_ids nb_workers
        = optimize_parallel_gpu
            (some { gpu_q := some gpu_ids, processes := nb_workers })
            train trials gpu_ids' nb_workers')
    ∧ (∀ (p : PoolHandle) (train : A → Except E R) (trials : List A)
        (ids1 ids2 : List String) (w1 w2 : Nat),
      optimize_parallel_gpu (some p) train trials ids1 w1
        = optimize_parallel_gpu (some p) train trials ids2 w2)
    ∧ (∀ (train : A → Except E R) (trials : List A) (ids : List String)
        (w w0 : Nat), trials ≠ [] →
      (optimize_parallel_gpu (some { gpu_q := none, processes := w0 })
          train trials ids w).2 = GpuRunResult.nameError)
    ∧ (∀ (train : A → Except E R) (ids : List String) (w w0 : Nat),
      optimize_parallel_gpu (some { gpu_q := none, processes := w0 })
          train ([] : List A) ids w
        = (some { gpu_q := none, processes := w0 }, GpuRunResult.results []))
    ∧ (∀ (train : A → Except E R) (trials : List A) (w : Nat),
      (optimize_parallel_cpu none train trials w).1
        = some { gpu_q := none, processes := w }) := by
  refine ⟨fun _ _ _ _ _ _ => rfl, fun _ _ _ _ _ _ _ => rfl, ?_,
    fun _ _ _ _ => rfl, fun _ _ _ => rfl⟩
  intro train trials ids w w0 hne
  cases trials with
  | nil => exact absurd rfl hne
  | cons t ts => rfl

/-- Witness for C10: a GPU call on a CPU-created (queue-less) pool with
one trial yields the missing-queue `NameError`. -/
theorem c10_pool_created_once_witness :
    (optimize_parallel_gpu (some { gpu_q := none, processes := 4 })
        (fun n : Nat => (Except.ok (n + 1) : Except String Nat))
        [3] ["0"] 2).2 = GpuRunResult.nameError :=
  (@c10_pool_created_once Nat String Nat).2.2.1
    (fun n : Nat => (Except.ok (n + 1) : Except String Nat))
    [3] ["0"] 2 4 (by decide)

end TestTube
